import Mathlib

set_option linter.unusedVariables false

namespace AgentWebApp

/-! Shallow embedding of the streaming chat gateway of the
az-foundry-agent-webapp repository: the wire event protocol of the
streaming endpoint, the agent-load path (`GetAgentAsync`), attachment
validation (`ValidateImageDataUris`), message construction
(`BuildUserMessage`), message streaming (`StreamMessageAsync`),
conversation creation (`CreateConversationAsync`), and the shared
last-run-usage slot (`_lastRunUsage` / `GetLastRunUsageAsync`). -/

/-- Token usage record, embedding the `UsageInfo` class of
`AzureAIAgentService.cs` (PromptTokens, CompletionTokens, TotalTokens). -/
structure UsageInfo where
  promptTokens : Nat
  completionTokens : Nat
  totalTokens : Nat
deriving DecidableEq, Repr

/-- Wire protocol events of the streaming endpoint: the discriminated
union described by the spec (ConversationId, Chunk, Usage, Done, Error). -/
inductive StreamEvent
  | conversationId (id : String)
  | chunk (content : String)
  | usage (u : UsageInfo)
  | done
  | error (message : String)
deriving DecidableEq, Repr

/-- Outcome of iterating the provider's delta stream: either normal
completion (with the usage captured during iteration, if any) or an
exception carrying a user-safe message. -/
inductive StreamOutcome
  | success (capturedUsage : Option UsageInfo)
  | failure (message : String)
deriving DecidableEq, Repr

/-- Modelled from the spec: the StreamEncoder / streaming endpoint body.
The concrete endpoint implementation (backend `Program.cs` / FastAPI
`app/main.py`) is not among the provided sources; the docs file only
sketches it.  Faithful to the spec's words: emit ConversationId
immediately; emit one Chunk per delta; on normal provider completion emit
Usage (if captured) then Done; on any exception raised during iteration
emit a single Error event carrying a user-safe message and do not emit
Done. -/
def encodeStream (convId : String) (deltas : List String)
    (outcome : StreamOutcome) : List StreamEvent :=
  StreamEvent.conversationId convId ::
    (deltas.map StreamEvent.chunk ++
      match outcome with
      | .success none => [StreamEvent.done]
      | .success (some u) => [StreamEvent.usage u, StreamEvent.done]
      | .failure msg => [StreamEvent.error msg])

/-- Recognizer for usage events. -/
def isUsageEv : StreamEvent → Bool
  | .usage _ => true
  | _ => false

/-- Recognizer for terminal events (done or error). -/
def isTerminalEv : StreamEvent → Bool
  | .done => true
  | .error _ => true
  | _ => false

/-- Recognizer for the done event. -/
def isDoneEv : StreamEvent → Bool
  | .done => true
  | _ => false

/-- Recognizer for error events. -/
def isErrorEv : StreamEvent → Bool
  | .error _ => true
  | _ => false

/-- The terminal event the protocol requires for a given outcome. -/
def terminalEventFor : StreamOutcome → StreamEvent
  | .success _ => StreamEvent.done
  | .failure m => StreamEvent.error m

theorem countP_map_chunk (p : StreamEvent → Bool) (deltas : List String)
    (h : ∀ s, p (StreamEvent.chunk s) = false) :
    (deltas.map StreamEvent.chunk).countP p = 0 := by
  induction deltas with
  | nil => rfl
  | cons d rest ih => simp [List.countP_cons, ih, h]

/-- C1: every response stream emits the conversationId event first (before
any chunk), a usage event at most once and only before the terminal event,
and exactly one terminal event ends the stream — done on success, error on
failure, with no done event following an error event. -/
theorem encodeStream_protocol_order (convId : String) (deltas : List String)
    (outcome : StreamOutcome) :
    (encodeStream convId deltas outcome).head? =
        some (StreamEvent.conversationId convId) ∧
    (encodeStream convId deltas outcome).countP isUsageEv ≤ 1 ∧
    (encodeStream convId deltas outcome).countP isTerminalEv = 1 ∧
    ((encodeStream convId deltas outcome).dropLast).countP isTerminalEv = 0 ∧
    (encodeStream convId deltas outcome).getLast? =
        some (terminalEventFor outcome) ∧
    (∀ m, outcome = .failure m →
      (encodeStream convId deltas outcome).countP isDoneEv = 0) := by
  have husage := countP_map_chunk isUsageEv deltas (fun s => rfl)
  have hterm := countP_map_chunk isTerminalEv deltas (fun s => rfl)
  have hdone := countP_map_chunk isDoneEv deltas (fun s => rfl)
  cases outcome with
  | success cu =>
    cases cu with
    | none =>
      refine ⟨rfl, ?_, ?_, ?_, ?_, ?_⟩
      · simp [encodeStream, List.countP_cons, List.countP_append, husage,
          isUsageEv]
      · simp [encodeStream, List.countP_cons, List.countP_append, hterm,
          isTerminalEv]
      · have : encodeStream convId deltas (.success none) =
            (StreamEvent.conversationId convId :: deltas.map StreamEvent.chunk)
              ++ [StreamEvent.done] := by
          simp [encodeStream]
        rw [this, List.dropLast_concat]
        simp [List.countP_cons, hterm, isTerminalEv]
      · have : encodeStream convId deltas (.success none) =
            (StreamEvent.conversationId convId :: deltas.map StreamEvent.chunk)
              ++ [StreamEvent.done] := by
          simp [encodeStream]
        rw [this, List.getLast?_concat]
        rfl
      · intro m hm; cases hm
    | some u =>
      refine ⟨rfl, ?_, ?_, ?_, ?_, ?_⟩
      · simp [encodeStream, List.countP_cons, List.countP_append, husage,
          isUsageEv]
      · simp [encodeStream, List.countP_cons, List.countP_append, hterm,
          isTerminalEv]
      · have : encodeStream convId deltas (.success (some u)) =
            (StreamEvent.conversationId convId :: deltas.map StreamEvent.chunk
              ++ [StreamEvent.usage u]) ++ [StreamEvent.done] := by
          simp [encodeStream]
        rw [this, List.dropLast_concat]
        simp [List.countP_cons, List.countP_append, hterm, isTerminalEv]
      · have : encodeStream convId deltas (.success (some u)) =
            (StreamEvent.conversationId convId :: deltas.map StreamEvent.chunk
              ++ [StreamEvent.usage u]) ++ [StreamEvent.done] := by
          simp [encodeStream]
        rw [this, List.getLast?_concat]
        rfl
      · intro m hm; cases hm
  | failure msg =>
    refine ⟨rfl, ?_, ?_, ?_, ?_, ?_⟩
    · simp [encodeStream, List.countP_cons, List.countP_append, husage,
        isUsageEv]
    · simp [encodeStream, List.countP_cons, List.countP_append, hterm,
        isTerminalEv]
    · have : encodeStream convId deltas (.failure msg) =
          (StreamEvent.conversationId convId :: deltas.map StreamEvent.chunk)
            ++ [StreamEvent.error msg] := by
        simp [encodeStream]
      rw [this, List.dropLast_concat]
      simp [List.countP_cons, hterm, isTerminalEv]
    · have : encodeStream convId deltas (.failure msg) =
          (StreamEvent.conversationId convId :: deltas.map StreamEvent.chunk)
            ++ [StreamEvent.error msg] := by
        simp [encodeStream]
      rw [this, List.getLast?_concat]
      rfl
    · intro m hm
      simp [encodeStream, List.countP_cons, List.countP_append, hdone,
        isDoneEv]

/-- Witness for C1: the protocol facts evaluated on a concrete failing
stream, with the failure-case conjunct discharged at its message. -/
theorem encodeStream_protocol_order_witness :
    (encodeStream ("c") [("hi")] (.failure ("boom"))).head? =
        some (StreamEvent.conversationId ("c")) ∧
    (encodeStream ("c") [("hi")] (.failure ("boom"))).countP isDoneEv = 0 :=
  ⟨(encodeStream_protocol_order ("c") [("hi")] (.failure ("boom"))).1,
    (encodeStream_protocol_order ("c") [("hi")]
      (.failure ("boom"))).2.2.2.2.2 ("boom") rfl⟩

/-- C2: for every exception raised while iterating the provider's delta
stream after the conversationId event was emitted, the encoder emits
exactly one error event carrying the user-safe message, emits no done
event, and the error event is the last frame (no chunk follows it). -/
theorem encodeStream_failure_single_error (convId : String)
    (deltas : List String) (msg : String) :
    (encodeStream convId deltas (.failure msg)).countP isErrorEv = 1 ∧
    (encodeStream convId deltas (.failure msg)).countP isDoneEv = 0 ∧
    (encodeStream convId deltas (.failure msg)).getLast? =
        some (StreamEvent.error msg) ∧
    ((encodeStream convId deltas (.failure msg)).dropLast).countP isErrorEv
        = 0 := by
  have herr := countP_map_chunk isErrorEv deltas (fun s => rfl)
  have hdone := countP_map_chunk isDoneEv deltas (fun s => rfl)
  have hsplit : encodeStream convId deltas (.failure msg) =
      (StreamEvent.conversationId convId :: deltas.map StreamEvent.chunk)
        ++ [StreamEvent.error msg] := by
    simp [encodeStream]
  refine ⟨?_, ?_, ?_, ?_⟩
  · simp [encodeStream, List.countP_cons, List.countP_append, herr, isErrorEv]
  · simp [encodeStream, List.countP_cons, List.countP_append, hdone, isDoneEv]
  · rw [hsplit, List.getLast?_concat]
  · rw [hsplit, List.dropLast_concat]
    simp [List.countP_cons, herr, isErrorEv]

/-! Agent-load path (`GetAgentAsync`, part_003 lines 102-133): double-checked
caching of the agent handle under a single-permit `SemaphoreSlim`.  Modelled
as an interleaving machine: each caller thread runs the program
`fast-path cache check → wait on the lock → re-check under the lock →
provider load (sets the cache) → release and return`.  The provider load is
assumed to succeed and return the fixed handle `a` (the claim is about
successful loads). -/

/-- Program counter of one caller thread of the agent-load path. -/
inductive ThreadPC
  | start
  | waitLock
  | locked
  | loading
  | finished (r : Nat)
deriving DecidableEq, Repr

/-- Whether a thread has returned from the agent-load call. -/
def ThreadPC.isFinished : ThreadPC → Bool
  | .finished _ => true
  | _ => false

/-- Shared state of the service during the agent-load path:
`cache` embeds the `_latestAgentVersion` field, `lockHolder` the
single-permit `_agentLock` semaphore, `loadCount` counts the underlying
`_projectClient.Agents.GetAgentAsync` provider calls, `pcs` is the program
counter of every caller thread. -/
structure SvcState where
  cache : Option Nat
  lockHolder : Option Nat
  loadCount : Nat
  pcs : Nat → ThreadPC

/-- Replace the program counter of thread `t`. -/
def setPc (s : SvcState) (t : Nat) (p : ThreadPC) : SvcState :=
  { s with pcs := fun u => if u = t then p else s.pcs u }

@[simp] theorem setPc_cache (s : SvcState) (t : Nat) (p : ThreadPC) :
    (setPc s t p).cache = s.cache := rfl

@[simp] theorem setPc_lockHolder (s : SvcState) (t : Nat) (p : ThreadPC) :
    (setPc s t p).lockHolder = s.lockHolder := rfl

@[simp] theorem setPc_loadCount (s : SvcState) (t : Nat) (p : ThreadPC) :
    (setPc s t p).loadCount = s.loadCount := rfl

@[simp] theorem setPc_pcs_self (s : SvcState) (t : Nat) (p : ThreadPC) :
    (setPc s t p).pcs t = p := by simp [setPc]

theorem setPc_pcs_other (s : SvcState) (t u : Nat) (p : ThreadPC)
    (h : u ≠ t) : (setPc s t p).pcs u = s.pcs u := by simp [setPc, h]

/-- One atomic step of thread `t` in `GetAgentAsync`, loading provider
handle `a`: the fast-path cache read, the semaphore wait (no-op while the
permit is held elsewhere), the re-check under the lock (returning the
cached handle and releasing), the provider load (caching the handle,
releasing, returning), and returned threads stay put. -/
def step (a : Nat) (s : SvcState) (t : Nat) : SvcState :=
  match s.pcs t with
  | .start =>
    match s.cache with
    | some v => setPc s t (.finished v)
    | none => setPc s t .waitLock
  | .waitLock =>
    match s.lockHolder with
    | none => { setPc s t .locked with lockHolder := some t }
    | some _ => s
  | .locked =>
    match s.cache with
    | some v => { setPc s t (.finished v) with lockHolder := none }
    | none => setPc s t .loading
  | .loading =>
    { setPc s t (.finished a) with
        cache := some a, loadCount := s.loadCount + 1, lockHolder := none }
  | .finished _ => s

/-- Run a schedule (an arbitrary interleaving of thread ids). -/
def runSched (a : Nat) (sched : List Nat) (s : SvcState) : SvcState :=
  sched.foldl (step a) s

/-- Initial service state: nothing cached, lock free, no provider call yet,
every caller about to enter `GetAgentAsync`. -/
def initAgentState : SvcState :=
  { cache := none, lockHolder := none, loadCount := 0, pcs := fun _ => .start }

/-- Inductive invariant of the agent-load machine: the cache only ever holds
the provider handle; the provider has been called exactly once iff the cache
is filled; the lock is held by any thread inside the critical section; a
loading thread sees an empty cache; and every returned thread returned the
provider handle, which is by then cached. -/
def AgentInv (a : Nat) (s : SvcState) : Prop :=
  (∀ v, s.cache = some v → v = a) ∧
  (s.loadCount = if s.cache.isSome then 1 else 0) ∧
  (∀ t, s.pcs t = .locked ∨ s.pcs t = .loading → s.lockHolder = some t) ∧
  (∀ t, s.pcs t = .loading → s.cache = none) ∧
  (∀ t v, s.pcs t = .finished v → v = a ∧ s.cache = some a)

theorem agentInv_init (a : Nat) : AgentInv a initAgentState := by
  refine ⟨?_, ?_, ?_, ?_, ?_⟩
  · intro v h; simp [initAgentState] at h
  · simp [initAgentState]
  · intro t h; rcases h with h | h <;> simp [initAgentState] at h
  · intro t h; simp [initAgentState] at h
  · intro t v h; simp [initAgentState] at h

theorem agentInv_step (a : Nat) (s : SvcState) (t : Nat)
    (h : AgentInv a s) : AgentInv a (step a s t) := by
  obtain ⟨h1, h2, h3, h4, h5⟩ := h
  unfold step
  cases hpc : s.pcs t with
  | start =>
    cases hc : s.cache with
    | some v =>
      refine ⟨by simpa [hc] using h1, by simpa using h2, ?_, ?_, ?_⟩
      · intro u hu
        by_cases hut : u = t
        · subst hut; simp [setPc_pcs_self] at hu
        · rw [setPc_pcs_other s t u _ hut] at hu
          simpa using h3 u hu
      · intro u hu
        by_cases hut : u = t
        · subst hut; simp [setPc_pcs_self] at hu
        · rw [setPc_pcs_other s t u _ hut] at hu
          simpa using h4 u hu
      · intro u w hu
        by_cases hut : u = t
        · subst hut; simp [setPc_pcs_self] at hu
          subst hu
          exact ⟨h1 v hc, by simpa [h1 v hc] using hc⟩
        · rw [setPc_pcs_other s t u _ hut] at hu
          simpa using h5 u w hu
    | none =>
      refine ⟨by simpa using h1, by simpa using h2, ?_, ?_, ?_⟩
      · intro u hu
        by_cases hut : u = t
        · subst hut; simp [setPc_pcs_self] at hu
        · rw [setPc_pcs_other s t u _ hut] at hu
          simpa using h3 u hu
      · intro u hu
        by_cases hut : u = t
        · subst hut; simp [setPc_pcs_self] at hu
        · rw [setPc_pcs_other s t u _ hut] at hu
          simpa using h4 u hu
      · intro u w hu
        by_cases hut : u = t
        · subst hut; simp [setPc_pcs_self] at hu
        · rw [setPc_pcs_other s t u _ hut] at hu
          simpa using h5 u w hu
  | waitLock =>
    cases hl : s.lockHolder with
    | none =>
      refine ⟨by simpa using h1, by simpa using h2, ?_, ?_, ?_⟩
      · intro u hu
        by_cases hut : u = t
        · subst hut; rfl
        · have hu' : s.pcs u = .locked ∨ s.pcs u = .loading := by
            simpa [setPc_pcs_other s t u _ hut] using hu
          have := h3 u hu'
          rw [hl] at this; cases this
      · intro u hu
        by_cases hut : u = t
        · subst hut; simp [setPc_pcs_self] at hu
        · have hu' : s.pcs u = .loading := by
            simpa [setPc_pcs_other s t u _ hut] using hu
          simpa using h4 u hu'
      · intro u w hu
        by_cases hut : u = t
        · subst hut; simp [setPc_pcs_self] at hu
        · have hu' : s.pcs u = .finished w := by
            simpa [setPc_pcs_other s t u _ hut] using hu
          simpa using h5 u w hu'
    | some holder => exact ⟨h1, h2, h3, h4, h5⟩
  | locked =>
    have hlock : s.lockHolder = some t := h3 t (Or.inl hpc)
    cases hc : s.cache with
    | some v =>
      refine ⟨by simpa [hc] using h1, by simpa using h2, ?_, ?_, ?_⟩
      · intro u hu
        by_cases hut : u = t
        · subst hut; simp [setPc_pcs_self] at hu
        · have hu' : s.pcs u = .locked ∨ s.pcs u = .loading := by
            simpa [setPc_pcs_other s t u _ hut] using hu
          have := h3 u hu'
          rw [hlock] at this
          cases this
          exact absurd rfl hut
      · intro u hu
        by_cases hut : u = t
        · subst hut; simp [setPc_pcs_self] at hu
        · have hu' : s.pcs u = .loading := by
            simpa [setPc_pcs_other s t u _ hut] using hu
          simpa using h4 u hu'
      · intro u w hu
        by_cases hut : u = t
        · subst hut; simp [setPc_pcs_self] at hu
          subst hu
          exact ⟨h1 v hc, by simpa [h1 v hc] using hc⟩
        · have hu' : s.pcs u = .finished w := by
            simpa [setPc_pcs_other s t u _ hut] using hu
          simpa using h5 u w hu'
    | none =>
      refine ⟨by simpa using h1, by simpa using h2, ?_, ?_, ?_⟩
      · intro u hu
        by_cases hut : u = t
        · subst hut; simpa using hlock
        · have hu' : s.pcs u = .locked ∨ s.pcs u = .loading := by
            simpa [setPc_pcs_other s t u _ hut] using hu
          simpa using h3 u hu'
      · intro u hu
        by_cases hut : u = t
        · subst hut; simpa using hc
        · have hu' : s.pcs u = .loading := by
            simpa [setPc_pcs_other s t u _ hut] using hu
          simpa using h4 u hu'
      · intro u w hu
        by_cases hut : u = t
        · subst hut; simp [setPc_pcs_self] at hu
        · have hu' : s.pcs u = .finished w := by
            simpa [setPc_pcs_other s t u _ hut] using hu
          simpa using h5 u w hu'
  | loading =>
    have hlock : s.lockHolder = some t := h3 t (Or.inr hpc)
    have hc : s.cache = none := h4 t hpc
    refine ⟨?_, ?_, ?_, ?_, ?_⟩
    · intro v hv
      simp at hv
      omega
    · have : s.loadCount = 0 := by simpa [hc] using h2
      simp [this]
    · intro u hu
      by_cases hut : u = t
      · subst hut; simp [setPc_pcs_self] at hu
      · have hu' : s.pcs u = .locked ∨ s.pcs u = .loading := by
          simpa [setPc_pcs_other s t u _ hut] using hu
        have := h3 u hu'
        rw [hlock] at this
        cases this
        exact absurd rfl hut
    · intro u hu
      by_cases hut : u = t
      · subst hut; simp [setPc_pcs_self] at hu
      · have hu' : s.pcs u = .loading := by
          simpa [setPc_pcs_other s t u _ hut] using hu
        have := h3 u (Or.inr hu')
        rw [hlock] at this
        cases this
        exact absurd rfl hut
    · intro u w hu
      by_cases hut : u = t
      · subst hut; simp [setPc_pcs_self] at hu
        subst hu
        exact ⟨rfl, rfl⟩
      · have hu' : s.pcs u = .finished w := by
          simpa [setPc_pcs_other s t u _ hut] using hu
        have := h5 u w hu'
        rw [hc] at this
        exact absurd this.2 (by simp)
  | finished r => exact ⟨h1, h2, h3, h4, h5⟩

theorem agentInv_run (a : Nat) (sched : List Nat) (s : SvcState)
    (h : AgentInv a s) : AgentInv a (runSched a sched s) := by
  induction sched generalizing s with
  | nil => exact h
  | cons t rest ih =>
    have : runSched a (t :: rest) s = runSched a rest (step a s t) := rfl
    rw [this]
    exact ih (step a s t) (agentInv_step a s t h)

/-- C3: for any interleaving under which the first `N` caller threads of the
agent-load path have all returned, exactly one underlying provider load call
was performed and all `N` callers received the same successful agent
handle. -/
theorem getAgent_concurrent_single_load (a : Nat) (sched : List Nat)
    (N : Nat) (hN : 0 < N)
    (hdone : ∀ t, t < N →
      ((runSched a sched initAgentState).pcs t).isFinished = true) :
    (runSched a sched initAgentState).loadCount = 1 ∧
    ∀ t, t < N →
      (runSched a sched initAgentState).pcs t = .finished a := by
  obtain ⟨h1, h2, h3, h4, h5⟩ :=
    agentInv_run a sched initAgentState (agentInv_init a)
  have hall : ∀ t, t < N →
      (runSched a sched initAgentState).pcs t = .finished a := by
    intro t ht
    have hfin := hdone t ht
    cases hp : (runSched a sched initAgentState).pcs t with
    | finished r =>
      have := (h5 t r hp).1
      rw [this]
    | start => rw [hp] at hfin; simp [ThreadPC.isFinished] at hfin
    | waitLock => rw [hp] at hfin; simp [ThreadPC.isFinished] at hfin
    | locked => rw [hp] at hfin; simp [ThreadPC.isFinished] at hfin
    | loading => rw [hp] at hfin; simp [ThreadPC.isFinished] at hfin
  refine ⟨?_, hall⟩
  have h0 := hall 0 hN
  have hc := (h5 0 a h0).2
  rw [h2, hc]
  rfl

/-- Witness for C3: a concrete contended schedule on two threads — both miss
the fast path, thread 0 takes the lock and loads while thread 1 spins on the
semaphore, then thread 1 enters the critical section and hits the re-check.
One provider call, both callers get handle 42. -/
theorem getAgent_concurrent_single_load_witness :
    0 < 2 ∧
    (∀ t, t < 2 →
      ((runSched 42 [0, 1, 0, 1, 0, 1, 0, 1, 1] initAgentState).pcs t).isFinished
        = true) ∧
    ((runSched 42 [0, 1, 0, 1, 0, 1, 0, 1, 1] initAgentState).loadCount = 1 ∧
      ∀ t, t < 2 →
        (runSched 42 [0, 1, 0, 1, 0, 1, 0, 1, 1] initAgentState).pcs t
          = .finished 42) :=
  ⟨by decide, by decide,
    getAgent_concurrent_single_load 42 [0, 1, 0, 1, 0, 1, 0, 1, 1] 2
      (by decide) (by decide)⟩

/-! Sequential view of `GetAgentAsync` for idempotence and failure
recovery: one call observes the `_latestAgentVersion` cache and, on a miss,
performs the provider fetch, which may fail.  On success the handle is
assigned to the cache; on failure the exception propagates out of the
`try` block and the cache assignment never runs. -/

/-- One `GetAgentAsync` call: given the current cache and the provider's
response for this call, return (result, new cache, whether the remote fetch
was performed). -/
def getAgentOnce (cache : Option Nat) (providerResult : Except String Nat) :
    Except String Nat × Option Nat × Bool :=
  match cache with
  | some v => (.ok v, some v, false)
  | none =>
    match providerResult with
    | .ok v => (.ok v, some v, true)
    | .error e => (.error e, none, true)

/-- A sequence of `GetAgentAsync` calls threading the cache; returns each
call's (result, fetched?) pair and the final cache. -/
def runAgentCalls (cache : Option Nat)
    (providerResults : List (Except String Nat)) :
    List (Except String Nat × Bool) × Option Nat :=
  match providerResults with
  | [] => ([], cache)
  | p :: rest =>
    let r := getAgentOnce cache p
    let tailRes := runAgentCalls r.2.1 rest
    ((r.1, r.2.2) :: tailRes.1, tailRes.2)

/-- C4: after one successful load every subsequent call returns the
identical cached handle without performing another remote fetch; a failed
load caches nothing, so the next call performs the remote fetch again from
scratch. -/
theorem getAgent_idempotent_failure_recovery :
    (∀ v provs, runAgentCalls (some v) provs =
        (provs.map (fun p => (Except.ok v, false)), some v)) ∧
    (∀ e, getAgentOnce none (.error e) = (.error e, none, true)) ∧
    (∀ v, getAgentOnce none (.ok v) = (.ok v, some v, true)) := by
  refine ⟨?_, fun e => rfl, fun v => rfl⟩
  intro v provs
  induction provs with
  | nil => rfl
  | cons p rest ih =>
    simp [runAgentCalls, getAgentOnce, ih]

/-! Attachment validation (`ValidateImageDataUris`, part_003 lines
274-339).  Error messages are abstracted into structured error values (one
constructor per distinct message shape); the numeric payloads the messages
interpolate (count, decoded size) are retained. -/

/-- Structured validation errors, one constructor per error message of
`ValidateImageDataUris`. -/
inductive ValErr
  | tooMany (count : Nat)
  | invalidFormat (index : Nat)
  | malformedStructure (index : Nat)
  | unsupportedMime (index : Nat) (mime : String)
  | invalidBase64 (index : Nat)
  | sizeExceeded (index : Nat) (bytes : Nat)
deriving DecidableEq, Repr

/-- Embeds `dataUri.StartsWith("data:")`. -/
def hasDataScheme : List Char → Bool
  | 'd' :: 'a' :: 't' :: 'a' :: ':' :: _ => true
  | _ => false

/-- The allowed MIME types of `ValidateImageDataUris`. -/
def allowedMimeTypes : List (List Char) :=
  [("image/png").data, ("image/jpeg").data, ("image/jpg").data,
    ("image/gif").data, ("image/webp").data]

/-- The 5MB decoded-size limit (`maxSizeBytes`). -/
def maxImageBytes : Nat := 5 * 1024 * 1024

/-- Whitespace characters `Convert.FromBase64String` skips. -/
def isB64Space (c : Char) : Bool :=
  c = ' ' || c = '\t' || c = '\n' || c = '\r'

/-- Characters of the base64 alphabet (excluding padding). -/
def isB64Alpha (c : Char) : Bool :=
  ('A' ≤ c && c ≤ 'Z') || ('a' ≤ c && c ≤ 'z') || ('0' ≤ c && c ≤ '9') ||
    c = '+' || c = '/'

/-- Embeds `Convert.FromBase64String`, abstracted to the decoded byte
count: skip whitespace; the remaining length must be a multiple of 4; at
most two trailing `=` padding characters; every other character must be
from the base64 alphabet.  Returns `none` where C# throws
`FormatException`, otherwise the decoded length
`significant/4*3 - padding`. -/
def fromBase64Len (cs : List Char) : Option Nat :=
  let t := cs.filter (fun c => !isB64Space c)
  let pads := (t.reverse.takeWhile (fun c => c = '=')).length
  if t.length % 4 ≠ 0 then none
  else if 2 < pads then none
  else if (t.take (t.length - pads)).all isB64Alpha then
    some (t.length / 4 * 3 - pads)
  else none

/-- Per-item body of the `ValidateImageDataUris` loop for item `i` (the
code appends at most one error per item, each `errors.Add` being followed
by `continue` or falling off the iteration): structural checks on the
`data:` scheme and the `;`/`,` positions, MIME lookup after lowercasing,
base64 decode, decoded-size limit. -/
def validateItem (i : Nat) (s : String) : Option ValErr :=
  let cs := s.data
  if hasDataScheme cs then
    match cs.findIdx? (fun c => c = ';'), cs.findIdx? (fun c => c = ',') with
    | some si, some ci =>
      if ci < si then some (.malformedStructure i)
      else
        let mediaType := ((cs.drop 5).take (si - 5)).map Char.toLower
        if allowedMimeTypes.contains mediaType then
          match fromBase64Len (cs.drop (ci + 1)) with
          | none => some (.invalidBase64 i)
          | some n =>
            if maxImageBytes < n then some (.sizeExceeded i n) else none
        else some (.unsupportedMime i ⟨mediaType⟩)
    | _, _ => some (.malformedStructure i)
  else some (.invalidFormat i)

/-- Embeds `ValidateImageDataUris`: null or empty list is valid; more than
5 entries short-circuits to the single aggregated count error; otherwise
the per-item loop collects at most one error per item. -/
def validateImageDataUris (imageDataUris : Option (List String)) :
    List ValErr :=
  match imageDataUris with
  | none => []
  | some xs =>
    if xs.length = 0 then []
    else if 5 < xs.length then [.tooMany xs.length]
    else xs.enum.filterMap (fun p => validateItem p.1 p.2)

/-! Reference definition of attachment validation, following the words of
the claim: an entry is valid iff it structurally parses as
`data:<mime>;<encoding>,<payload>`, its mime type is in the allowed set,
its payload is well-formed base64 and decodes to at most 5MB; a valid list
contributes no error, each invalid entry exactly one, and a list of more
than five entries one aggregated error with per-item checks skipped. -/

/-- Spec-side errors: the aggregated too-many error or one error blamed on
one entry. -/
inductive SpecErr
  | tooMany (count : Nat)
  | badItem (index : Nat)
deriving DecidableEq, Repr

/-- Forget which check an entry failed, keeping which entry is blamed. -/
def eraseValErr : ValErr → SpecErr
  | .tooMany n => .tooMany n
  | .invalidFormat i => .badItem i
  | .malformedStructure i => .badItem i
  | .unsupportedMime i _ => .badItem i
  | .invalidBase64 i => .badItem i
  | .sizeExceeded i _ => .badItem i

/-- Structural parse of the `data:<mime>;<encoding>,<payload>` form: the
`data:` scheme, a `;` and a `,` not before it; yields the mime type slice
and the payload after the comma. -/
def parseDataUri (cs : List Char) : Option (List Char × List Char) :=
  if hasDataScheme cs then
    match cs.findIdx? (fun c => c = ';'), cs.findIdx? (fun c => c = ',') with
    | some si, some ci =>
      if si ≤ ci then
        some ((cs.drop 5).take (si - 5), cs.drop (ci + 1))
      else none
    | _, _ => none
  else none

/-- Spec-side validity of one attachment entry. -/
def specItemValid (s : String) : Bool :=
  match parseDataUri s.data with
  | none => false
  | some (mime, payload) =>
    allowedMimeTypes.contains (mime.map Char.toLower) &&
      (match fromBase64Len payload with
       | some n => decide (n ≤ maxImageBytes)
       | none => false)

/-- Spec-side validation: no errors for a null or empty list, the single
aggregated error above five entries, otherwise one error per invalid
entry. -/
def specValidate (imageDataUris : Option (List String)) : List SpecErr :=
  match imageDataUris with
  | none => []
  | some xs =>
    if xs.length = 0 then []
    else if 5 < xs.length then [.tooMany xs.length]
    else xs.enum.filterMap
      (fun p => if specItemValid p.2 then none else some (.badItem p.1))

theorem validateItem_erase (i : Nat) (s : String) :
    (validateItem i s).map eraseValErr =
      if specItemValid s then none else some (SpecErr.badItem i) := by
  unfold validateItem specItemValid parseDataUri
  by_cases hds : hasDataScheme s.data
  · simp only [hds, if_true]
    cases h1 : s.data.findIdx? (fun c => c = ';') with
    | none => simp [eraseValErr]
    | some si =>
      cases h2 : s.data.findIdx? (fun c => c = ',') with
      | none => simp [eraseValErr]
      | some ci =>
        by_cases hlt : ci < si
        · have : ¬ si ≤ ci := by omega
          simp [hlt, this, eraseValErr]
        · have hle : si ≤ ci := by omega
          simp only [hlt, hle, if_false, if_true]
          by_cases hm : List.take (si - 5) (List.drop 5
              (List.map Char.toLower s.data)) ∈ allowedMimeTypes
          · cases hb : fromBase64Len (List.drop (ci + 1) s.data) with
            | none => simp [hm, hb, eraseValErr]
            | some n =>
              by_cases hn : maxImageBytes < n
              · have hn' : ¬ n ≤ maxImageBytes := by omega
                simp [hm, hb, hn, hn', eraseValErr]
              · have hn' : n ≤ maxImageBytes := by omega
                simp [hm, hb, hn, hn']
          · simp [hm, eraseValErr]
  · simp [hds, eraseValErr]

/-- C5: attachment validation equals the reference definition on every
input — null/empty lists yield no errors, more than five entries exactly
the one aggregated error with per-item checks skipped, and otherwise each
entry contributes exactly one error precisely when it fails structural
parsing, has a disallowed mime type, malformed base64, or decodes to more
than 5MB; in particular one oversized attachment is blamed without
affecting valid ones. -/
theorem validateImageDataUris_matches_spec (l : Option (List String)) :
    (validateImageDataUris l).map eraseValErr = specValidate l := by
  cases l with
  | none => rfl
  | some xs =>
    simp only [validateImageDataUris, specValidate]
    by_cases h0 : xs.length = 0
    · simp [h0]
    · by_cases h5 : 5 < xs.length
      · simp [h0, h5, eraseValErr]
      · simp only [h0, h5, if_false]
        rw [List.map_filterMap]
        have hfun : (fun p : Nat × String =>
            (validateItem p.1 p.2).map eraseValErr) =
            (fun p : Nat × String =>
              if specItemValid p.2 then none
              else some (SpecErr.badItem p.1)) :=
          funext fun p => validateItem_erase p.1 p.2
        rw [hfun]

/-! Message construction (`BuildUserMessage`, part_003 lines 345-377) and
streaming (`StreamMessageAsync`, part_003 lines 225-268).  Content parts
abstract `ResponseContentPart`: image bytes are kept as their decoded
length. -/

/-- Errors `StreamMessageAsync` / `BuildUserMessage` raise before opening
the provider stream. -/
inductive ChatError
  | emptyMessage
  | invalidAttachments (errors : List ValErr)
deriving DecidableEq, Repr

/-- A content part of the user message: the input text part, an inline
image part (media type and decoded byte count), a remote-URI image part,
or the value of a part whose construction throws in C#
(`IndexOf(';') = -1` making the range invalid, or `FromBase64String`
throwing). -/
inductive ContentPart
  | text (s : String)
  | inlineImage (mime : String) (byteLen : Nat)
  | uriImage (uri : String)
  | buildFailure
deriving DecidableEq, Repr

/-- Per-attachment body of the `BuildUserMessage` loop: a `data:` URI
yields an inline image part whose media type is the slice up to the first
`;` and whose bytes are the decoded payload after the first `,`
(`IndexOf` returning -1 makes the start index 0); anything else yields a
remote-URI image part. -/
def buildImagePart (s : String) : ContentPart :=
  let cs := s.data
  if hasDataScheme cs then
    match cs.findIdx? (fun c => c = ';') with
    | none => .buildFailure
    | some si =>
      let start :=
        match cs.findIdx? (fun c => c = ',') with
        | some ci => ci + 1
        | none => 0
      match fromBase64Len (cs.drop start) with
      | some n => .inlineImage ⟨(cs.drop 5).take (si - 5)⟩ n
      | none => .buildFailure
  else .uriImage s

/-- Embeds `BuildUserMessage`: validate the attachments first and throw an
aggregated `ArgumentException` on any error, otherwise build the text part
followed by one image part per attachment. -/
def buildUserMessage (message : String)
    (imageDataUris : Option (List String)) :
    Except ChatError (List ContentPart) :=
  let validationErrors := validateImageDataUris imageDataUris
  if validationErrors.isEmpty then
    .ok (.text message :: (imageDataUris.getD []).map buildImagePart)
  else .error (.invalidAttachments validationErrors)

/-- Embeds `string.IsNullOrWhiteSpace` on a present string: empty or all
whitespace. -/
def isNullOrWhiteSpaceStr (s : String) : Bool :=
  s.data.all (fun c => c.isWhitespace)

/-- Embeds `StreamMessageAsync` up to the provider boundary: reject a
null-or-whitespace message, then build the user message (validating the
attachments), then open the provider stream and yield its text deltas.
`providerDeltas` stands for the deltas the provider stream would produce;
the Bool records whether `CreateResponseStreamingAsync` was reached. -/
def streamMessage (message : String) (imageDataUris : Option (List String))
    (providerDeltas : List String) :
    Except ChatError (List String) × Bool :=
  if isNullOrWhiteSpaceStr message then (.error .emptyMessage, false)
  else
    match buildUserMessage message imageDataUris with
    | .error e => (.error e, false)
    | .ok _ => (.ok providerDeltas, true)

/-- C6: a streamMessage call whose attachment list fails validation never
opens the provider stream and never yields a delta, and (when it gets past
the message-blank check) fails with the error aggregating all per-item
validation messages. -/
theorem streamMessage_rejects_invalid_attachments (message : String)
    (imageDataUris : Option (List String)) (providerDeltas : List String)
    (h : validateImageDataUris imageDataUris ≠ []) :
    (streamMessage message imageDataUris providerDeltas).2 = false ∧
    (∀ ds, (streamMessage message imageDataUris providerDeltas).1 ≠
        .ok ds) ∧
    (isNullOrWhiteSpaceStr message = false →
      (streamMessage message imageDataUris providerDeltas).1 =
        .error (.invalidAttachments (validateImageDataUris imageDataUris)))
    := by
  have hne : (validateImageDataUris imageDataUris).isEmpty = false := by
    cases hv : validateImageDataUris imageDataUris with
    | nil => exact absurd hv h
    | cons e rest => rfl
  unfold streamMessage buildUserMessage
  by_cases hb : isNullOrWhiteSpaceStr message
  · simp [hb]
  · simp [hb, hne]

/-- Witness for C6: one non-data-URI attachment is rejected with its
itemized error and the provider stream is never opened. -/
theorem streamMessage_rejects_invalid_attachments_witness :
    validateImageDataUris (some [("not-a-data-uri")]) ≠ [] ∧
    (streamMessage ("hi") (some [("not-a-data-uri")]) [("d")]).2 = false ∧
    (∀ ds, (streamMessage ("hi") (some [("not-a-data-uri")]) [("d")]).1 ≠
        .ok ds) ∧
    (streamMessage ("hi") (some [("not-a-data-uri")]) [("d")]).1 =
      .error (.invalidAttachments
        (validateImageDataUris (some [("not-a-data-uri")]))) :=
  have h := streamMessage_rejects_invalid_attachments ("hi")
    (some [("not-a-data-uri")]) [("d")] (by decide)
  ⟨by decide, h.1, h.2.1, h.2.2 (by decide)⟩

/-- C7: a streamMessage call whose message is empty or whitespace-only
fails immediately with the empty-message error, before the provider
streaming call, yielding no deltas. -/
theorem streamMessage_rejects_blank_message (message : String)
    (imageDataUris : Option (List String)) (providerDeltas : List String)
    (h : isNullOrWhiteSpaceStr message = true) :
    streamMessage message imageDataUris providerDeltas =
      (.error .emptyMessage, false) := by
  unfold streamMessage
  rw [if_pos h]

/-- Witness for C7: a whitespace-only message is rejected before any
provider call. -/
theorem streamMessage_rejects_blank_message_witness :
    isNullOrWhiteSpaceStr ("  ") = true ∧
    streamMessage ("  ") none [("d")] = (.error .emptyMessage, false) :=
  ⟨by decide, streamMessage_rejects_blank_message ("  ") none [("d")]
    (by decide)⟩

theorem buildImagePart_inline_of_valid (i : Nat) (x : String)
    (hi : validateItem i x = none) :
    ∃ m n, buildImagePart x = ContentPart.inlineImage m n := by
  unfold validateItem at hi
  by_cases hds : hasDataScheme x.data
  · rw [if_pos hds] at hi
    cases h1 : x.data.findIdx? (fun c => c = ';') with
    | none => simp [h1] at hi
    | some si =>
      cases h2 : x.data.findIdx? (fun c => c = ',') with
      | none => simp [h1, h2] at hi
      | some ci =>
        simp only [h1, h2] at hi
        by_cases hlt : ci < si
        · simp [hlt] at hi
        · rw [if_neg hlt] at hi
          by_cases hm : allowedMimeTypes.contains
              (List.map Char.toLower (List.take (si - 5)
                (List.drop 5 x.data))) = true
          · rw [if_pos hm] at hi
            cases hb : fromBase64Len (List.drop (ci + 1) x.data) with
            | none => simp only [hb] at hi; cases hi
            | some n =>
              refine ⟨⟨(x.data.drop 5).take (si - 5)⟩, n, ?_⟩
              simp [buildImagePart, hds, h1, h2, hb]
          · rw [if_neg hm] at hi
            cases hi
  · rw [if_neg hds] at hi; cases hi

/-- C10: once validation passes, every image part of the built payload is
an inline-bytes part — the remote-URI branch of `BuildUserMessage` is
unreachable because validation rejects any entry that does not start with
`data:`. -/
theorem buildUserMessage_inline_only (message : String) (l : List String)
    (h : validateImageDataUris (some l) = []) :
    ∃ parts, buildUserMessage message (some l) = .ok parts ∧
      ∀ p ∈ parts, p = .text message ∨ ∃ m n, p = .inlineImage m n := by
  have hok : buildUserMessage message (some l) =
      .ok (.text message :: l.map buildImagePart) := by
    unfold buildUserMessage
    rw [h]
    rfl
  refine ⟨_, hok, ?_⟩
  intro p hp
  rcases List.mem_cons.mp hp with hp | hp
  · exact Or.inl hp
  · right
    obtain ⟨x, hx, rfl⟩ := List.mem_map.mp hp
    have hxvalid : ∃ i, validateItem i x = none := by
      simp only [validateImageDataUris] at h
      by_cases h0 : l.length = 0
      · rw [List.length_eq_zero] at h0
        subst h0
        simp at hx
      · by_cases h5 : 5 < l.length
        · rw [if_neg h0, if_pos h5] at h
          cases h
        · rw [if_neg h0, if_neg h5] at h
          have hmem : ∀ q ∈ l.enum, validateItem q.1 q.2 = none :=
            List.filterMap_eq_nil_iff.mp h
          have hx' : x ∈ l.enum.map Prod.snd := by
            rw [List.enum_map_snd]
            exact hx
          obtain ⟨q, hq, hqx⟩ := List.mem_map.mp hx'
          refine ⟨q.1, ?_⟩
          have hv := hmem q hq
          rw [hqx] at hv
          exact hv
    obtain ⟨i, hi⟩ := hxvalid
    exact buildImagePart_inline_of_valid i x hi

/-- Witness for C10: a single valid PNG data URI passes validation and
produces only text and inline-image parts. -/
theorem buildUserMessage_inline_only_witness :
    validateImageDataUris (some [("data:image/png;base64,AAAA")]) = [] ∧
    ∃ parts, buildUserMessage ("hi")
        (some [("data:image/png;base64,AAAA")]) = .ok parts ∧
      ∀ p ∈ parts, p = .text ("hi") ∨ ∃ m n, p = .inlineImage m n :=
  ⟨by decide,
    buildUserMessage_inline_only ("hi")
      [("data:image/png;base64,AAAA")] (by decide)⟩

/-! Shared last-run-usage slot: `StreamMessageAsync` writes the service
field `_lastRunUsage` when the provider stream's completed update arrives,
and `GetLastRunUsageAsync` reads that field (part_003 lines 256-264 and
392-397). -/

/-- Embeds the assignment `_lastRunUsage = ExtractUsageInfo(...)` on a
completed update: the previous slot value is discarded. -/
def recordCompletion (lastRunUsage : Option UsageInfo) (u : UsageInfo) :
    Option UsageInfo :=
  some u

/-- Embeds `GetLastRunUsageAsync`: returns the current slot value. -/
def getLastRunUsage (lastRunUsage : Option UsageInfo) : Option UsageInfo :=
  lastRunUsage

/-- One `StreamMessageAsync` call together with its effect on
`_lastRunUsage`: a call that opens the provider stream and sees a
completed update records that update's usage; a call that fails before or
during streaming leaves the slot as it was. -/
def streamCall (lastRunUsage : Option UsageInfo) (message : String)
    (imageDataUris : Option (List String)) (providerDeltas : List String)
    (completionUsage : Option UsageInfo) :
    (Except ChatError (List String) × Bool) × Option UsageInfo :=
  match streamMessage message imageDataUris providerDeltas with
  | (r, true) =>
    ((r, true),
      match completionUsage with
      | some u => recordCompletion lastRunUsage u
      | none => lastRunUsage)
  | (r, false) => ((r, false), lastRunUsage)

/-- Counterexample to C8: two sequential completed streamMessage calls.
The first call's completion stores usage ⟨1,2,3⟩, but after the second
call completes with usage ⟨4,5,6⟩ the accessor no longer returns the first
stream's usage — the shared `_lastRunUsage` slot was overwritten, so the
usage captured at one stream's completion IS altered by another call. -/
theorem lastRunUsage_shared_counterexample :
    (streamCall none ("a") none [("x")] (some ⟨1, 2, 3⟩)).2 =
        some ⟨1, 2, 3⟩ ∧
    getLastRunUsage
        (streamCall (streamCall none ("a") none [("x")] (some ⟨1, 2, 3⟩)).2
          ("b") none [("y")] (some ⟨4, 5, 6⟩)).2 = some ⟨4, 5, 6⟩ ∧
    getLastRunUsage
        (streamCall (streamCall none ("a") none [("x")] (some ⟨1, 2, 3⟩)).2
          ("b") none [("y")] (some ⟨4, 5, 6⟩)).2 ≠ some ⟨1, 2, 3⟩ := by
  refine ⟨rfl, rfl, ?_⟩
  intro h
  have := Option.some.inj h
  cases this

/-- C8 as amended: each streamMessage call's result is a function of that
call's own arguments (its own provider stream), but the captured usage
lives in a single shared last-run slot — recording a completion overwrites
whatever was there, so the accessor returns the usage of the most recently
completed stream, and a failed call leaves the slot untouched. -/
theorem lastRunUsage_last_completion_wins :
    (∀ st message imgs deltas cu,
      (streamCall st message imgs deltas cu).1 =
        streamMessage message imgs deltas) ∧
    (∀ st u, recordCompletion st u = some u) ∧
    (∀ st message imgs deltas u,
      (streamMessage message imgs deltas).2 = true →
      getLastRunUsage (streamCall st message imgs deltas (some u)).2 =
        some u) ∧
    (∀ st message imgs deltas cu,
      (streamMessage message imgs deltas).2 = false →
      (streamCall st message imgs deltas cu).2 = st) := by
  refine ⟨?_, fun st u => rfl, ?_, ?_⟩
  · intro st message imgs deltas cu
    rcases hs : streamMessage message imgs deltas with ⟨r, b⟩
    cases b <;> simp [streamCall, hs]
  · intro st message imgs deltas u h
    rcases hs : streamMessage message imgs deltas with ⟨r, b⟩
    rw [hs] at h
    cases b
    · cases h
    · simp [streamCall, hs, recordCompletion, getLastRunUsage]
  · intro st message imgs deltas cu h
    rcases hs : streamMessage message imgs deltas with ⟨r, b⟩
    rw [hs] at h
    cases b
    · simp [streamCall, hs]
    · cases h

/-- Witness for C8 (amended): a successful call's completion is what the
accessor returns afterwards, overwriting an older slot value; a blank-
message call leaves the slot alone. -/
theorem lastRunUsage_last_completion_wins_witness :
    ((streamCall (some ⟨9, 9, 9⟩) ("a") none [("x")] (some ⟨1, 2, 3⟩)).1 =
        streamMessage ("a") none [("x")]) ∧
    recordCompletion (some ⟨9, 9, 9⟩) ⟨1, 2, 3⟩ = some ⟨1, 2, 3⟩ ∧
    (streamMessage ("a") none [("x")]).2 = true ∧
    getLastRunUsage
        (streamCall (some ⟨9, 9, 9⟩) ("a") none [("x")]
          (some ⟨1, 2, 3⟩)).2 = some ⟨1, 2, 3⟩ ∧
    (streamMessage (" ") none [("x")]).2 = false ∧
    (streamCall (some ⟨9, 9, 9⟩) (" ") none [("x")]
        (some ⟨1, 2, 3⟩)).2 = some ⟨9, 9, 9⟩ :=
  ⟨lastRunUsage_last_completion_wins.1 (some ⟨9, 9, 9⟩) ("a") none [("x")]
      (some ⟨1, 2, 3⟩),
    lastRunUsage_last_completion_wins.2.1 (some ⟨9, 9, 9⟩) ⟨1, 2, 3⟩,
    by decide,
    lastRunUsage_last_completion_wins.2.2.1 (some ⟨9, 9, 9⟩) ("a") none
      [("x")] ⟨1, 2, 3⟩ (by decide),
    by decide,
    lastRunUsage_last_completion_wins.2.2.2 (some ⟨9, 9, 9⟩) (" ") none
      [("x")] (some ⟨1, 2, 3⟩) (by decide)⟩

/-! Conversation creation (`CreateConversationAsync`, part_003 lines
177-219): the provider assigns the conversation id; a non-null, non-empty
first message stores a title in the conversation metadata, truncated to 50
characters plus an ellipsis when longer. -/

/-- Embeds the title derivation of `CreateConversationAsync`:
`!string.IsNullOrEmpty(firstMessage)` guards the ternary
`Length > 50 ? firstMessage[..50] + "..." : firstMessage`. -/
def deriveTitle (firstMessage : Option String) : Option String :=
  match firstMessage with
  | none => none
  | some s =>
    if s.length = 0 then none
    else if 50 < s.length then some (s.take 50 ++ ("..."))
    else some s

/-- Embeds `CreateConversationAsync`: returns the provider-assigned
conversation id and the stored title metadata, if any. -/
def createConversation (firstMessage : Option String)
    (providerConversationId : String) : String × Option String :=
  (providerConversationId, deriveTitle firstMessage)

/-- C9: with a non-empty first message of at most 50 characters the stored
title is the message unchanged; with a longer one it is the first 50
characters followed by an ellipsis; with no (or an empty) first message no
title is stored. -/
theorem createConversation_title_truncation (s : String) (cid : String) :
    (createConversation none cid).2 = none ∧
    (createConversation (some ("")) cid).2 = none ∧
    (s.length ≠ 0 → s.length ≤ 50 →
      (createConversation (some s) cid).2 = some s) ∧
    (50 < s.length →
      (createConversation (some s) cid).2 = some (s.take 50 ++ ("..."))) := by
  refine ⟨rfl, rfl, ?_, ?_⟩
  · intro h0 h50
    have hn : ¬ 50 < s.length := by omega
    simp [createConversation, deriveTitle, h0, hn]
  · intro h50
    have h0 : ¬ s.length = 0 := by omega
    simp [createConversation, deriveTitle, h0, h50]

/-- Witness for C9: a short message is stored verbatim, a 60-character
message is cut to its first 50 characters plus the ellipsis, and absent or
empty first messages store nothing. -/
theorem createConversation_title_truncation_witness :
    (createConversation none ("c1")).2 = none ∧
    (createConversation (some ("")) ("c1")).2 = none ∧
    ((("hello") : String).length ≠ 0 ∧ (("hello") : String).length ≤ 50 ∧
      (createConversation (some ("hello")) ("c1")).2 = some ("hello")) ∧
    (50 < (("aaaaaaaaaaaaaaaaaaaaaaaaaaaaaaaaaaaaaaaaaaaaaaaaaabbbbbbbbbb") :
        String).length ∧
      (createConversation
          (some ("aaaaaaaaaaaaaaaaaaaaaaaaaaaaaaaaaaaaaaaaaaaaaaaaaabbbbbbbbbb"))
          ("c1")).2 =
        some
          (((("aaaaaaaaaaaaaaaaaaaaaaaaaaaaaaaaaaaaaaaaaaaaaaaaaabbbbbbbbbb") :
            String).take 50) ++ ("..."))) :=
  ⟨(createConversation_title_truncation ("hello") ("c1")).1,
    (createConversation_title_truncation ("hello") ("c1")).2.1,
    ⟨by decide, by decide,
      (createConversation_title_truncation ("hello") ("c1")).2.2.1
        (by decide) (by decide)⟩,
    ⟨by decide,
      (createConversation_title_truncation
          ("aaaaaaaaaaaaaaaaaaaaaaaaaaaaaaaaaaaaaaaaaaaaaaaaaabbbbbbbbbb")
          ("c1")).2.2.2 (by decide)⟩⟩

end AgentWebApp
